import Mathlib

/-!
Verification of the AI todo-manager core (parse + summarize pipelines).

Strings from the TypeScript source are embedded as lists of Unicode code
points (`List Nat`).  JavaScript's `String.prototype.length` counts UTF-16
code units; the embedding identifies that count with the code-point count,
which is exact for all BMP text (every concrete string appearing in the
theorems below is BMP).

Local date-times (`due_at` values, documented in the source as local
"YYYY-MM-DDTHH:mm" strings, and the `currentLocalDateTime` reference) are
embedded as structured `DateTime` records; `new Date(s)` comparisons on such
strings compare the corresponding epoch-millisecond values, embedded by
`msOf` (a proleptic-Gregorian day count, offset irrelevant to comparisons).
-/

namespace AiTodo

/-- JS whitespace class: the characters matched by the regex class
backslash-s and removed by String.prototype.trim (WhiteSpace plus
LineTerminator in ECMAScript). -/
def isSpace (c : Nat) : Bool :=
  c == 9 || c == 10 || c == 11 || c == 12 || c == 13 || c == 32 ||
  c == 0xa0 || c == 0x1680 || (0x2000 ≤ c && c ≤ 0x200a) ||
  c == 0x2028 || c == 0x2029 || c == 0x202f || c == 0x205f ||
  c == 0x3000 || c == 0xfeff

/-- EMOJI_REGEX of the source: the union of code-point ranges
1F300-1F9FF, 2600-26FF, 2700-27BF, FE00-FEFF, 1F000-1FFFF. -/
def isEmoji (c : Nat) : Bool :=
  (0x1F300 ≤ c && c ≤ 0x1F9FF) || (0x2600 ≤ c && c ≤ 0x26FF) ||
  (0x2700 ≤ c && c ≤ 0x27BF) || (0xFE00 ≤ c && c ≤ 0xFEFF) ||
  (0x1F000 ≤ c && c ≤ 0x1FFFF)

/-- DANGEROUS_CHARS_REGEX of the source: the characters
less-than, greater-than, apostrophe, double quote, backquote, semicolon,
backslash. -/
def isDangerous (c : Nat) : Bool :=
  c == 60 || c == 62 || c == 39 || c == 34 || c == 96 || c == 59 || c == 92

/-- Fullwidth block U+FF01-FF5E handled by the final preprocessing step. -/
def isFullwidth (c : Nat) : Bool :=
  0xFF01 ≤ c && c ≤ 0xFF5E

/-- String.prototype.trim: drop leading and trailing JS whitespace. -/
def trimL (l : List Nat) : List Nat :=
  ((l.dropWhile isSpace).reverse.dropWhile isSpace).reverse

/-- replace(backslash-s+ global, " "): every maximal whitespace run becomes
a single ASCII space. -/
def collapseWs : List Nat → List Nat
  | [] => []
  | [c] => if isSpace c then [32] else [c]
  | a :: b :: rest =>
    if isSpace a then
      if isSpace b then collapseWs (b :: rest)
      else 32 :: collapseWs (b :: rest)
    else a :: collapseWs (b :: rest)

/-- Fullwidth-to-ASCII conversion: subtract 0xFEE0 inside U+FF01-FF5E. -/
def toHalfwidth (c : Nat) : Nat :=
  if isFullwidth c then c - 0xFEE0 else c

/-- preprocessText of the source: trim, collapse whitespace runs, strip
emoji then trim, strip dangerous characters, convert fullwidth to ASCII,
final trim. -/
def preprocessText (text : List Nat) : List Nat :=
  let r1 := trimL text
  let r2 := collapseWs r1
  let r3 := trimL (r2.filter (fun c => !(isEmoji c)))
  let r4 := r3.filter (fun c => !(isDangerous c))
  let r5 := r4.map toHalfwidth
  trimL r5

def MIN_LENGTH : Nat := 2

def MAX_LENGTH : Nat := 500

structure ValidationResult where
  ok : Bool
  error : Option String
deriving Repr, DecidableEq

/-- validateInput of the source, with the dangerous-character regex test
taken at a fresh regex state (lastIndex = 0), i.e. the test finds a
dangerous character anywhere in the trimmed text. -/
def validateInput (text : List Nat) : ValidationResult :=
  let trimmed := trimL text
  if trimmed.length = 0 then
    ⟨false, some "할 일 내용을 입력해주세요."⟩
  else if trimmed.length < MIN_LENGTH then
    ⟨false, some "최소 2자 이상 입력해주세요."⟩
  else if MAX_LENGTH < text.length then
    ⟨false, some "입력은 500자 이내로 입력해주세요."⟩
  else if trimmed.any isDangerous then
    ⟨false, some "사용할 수 없는 특수문자가 포함되어 있습니다."⟩
  else if (trimL (trimmed.filter (fun c => !(isEmoji c)))).length = 0 then
    ⟨false, some "이모지만으로는 할 일을 분석할 수 없습니다. 텍스트를 함께 입력해주세요."⟩
  else
    ⟨true, none⟩

/-- RegExp.prototype.test on a regex carrying the global flag: the search
starts at the regex object's persistent lastIndex; on a hit lastIndex moves
past the match, on a miss it resets to 0.  Indices are code-unit positions;
for the BMP inputs used below they coincide with list positions. -/
def regexTestG (l : List Nat) (lastIndex : Nat) : Bool × Nat :=
  match (l.drop lastIndex).findIdx? isDangerous with
  | some i => (true, lastIndex + i + 1)
  | none => (false, 0)

/-- validateInput of the source with the module-level global regex state
threaded explicitly: the dangerous-character test both reads and writes the
shared lastIndex.  Branches returning before the test leave it unchanged. -/
def validateInputSt (text : List Nat) (lastIndex : Nat) :
    ValidationResult × Nat :=
  let trimmed := trimL text
  if trimmed.length = 0 then
    (⟨false, some "할 일 내용을 입력해주세요."⟩, lastIndex)
  else if trimmed.length < MIN_LENGTH then
    (⟨false, some "최소 2자 이상 입력해주세요."⟩, lastIndex)
  else if MAX_LENGTH < text.length then
    (⟨false, some "입력은 500자 이내로 입력해주세요."⟩, lastIndex)
  else
    let r := regexTestG trimmed lastIndex
    if r.1 then
      (⟨false, some "사용할 수 없는 특수문자가 포함되어 있습니다."⟩, r.2)
    else if (trimL (trimmed.filter (fun c => !(isEmoji c)))).length = 0 then
      (⟨false, some "이모지만으로는 할 일을 분석할 수 없습니다. 텍스트를 함께 입력해주세요."⟩, r.2)
    else
      (⟨true, none⟩, r.2)

/-- Outcome of the parse endpoint before the model call: either an HTTP 400
rejection or the cleaned text that is sent to the generative model. -/
inductive ParseOutcome where
  | rejected (status : Nat) (msg : String)
  | sentToModel (cleaned : List Nat)
deriving Repr, DecidableEq

/-- Validation and preprocessing stage of the parse POST handler: a failed
validation or a too-short cleaned text short-circuits with HTTP 400; only
otherwise is the cleaned text sent to the model. -/
def parseGate (text : List Nat) : ParseOutcome :=
  let v := validateInput text
  if v.ok then
    let cleaned := preprocessText text
    if cleaned.length < MIN_LENGTH then
      .rejected 400 "의미 있는 내용을 입력해주세요."
    else .sentToModel cleaned
  else .rejected 400 (v.error.getD "")

/-- Characterization of the fixed points of collapseWs: every whitespace
character is the ASCII space and no two adjacent characters are both
whitespace. -/
def collapsedB : List Nat → Bool
  | [] => true
  | [c] => !isSpace c || c == 32
  | a :: b :: rest =>
    (!isSpace a || (a == 32 && !isSpace b)) && collapsedB (b :: rest)

/-- Characters untouched by every preprocessing step: not emoji, not in the
dangerous set, not in the fullwidth block. -/
def CleanChar (c : Nat) : Prop :=
  isEmoji c = false ∧ isDangerous c = false ∧ isFullwidth c = false

instance (c : Nat) : Decidable (CleanChar c) := by
  unfold CleanChar
  infer_instance

def TITLE_MIN : Nat := 2

def TITLE_MAX : Nat := 100

/-- The fixed placeholder title of the source (Korean "new task"). -/
def placeholderTitle : List Nat := [0xC0C8, 32, 0xD560, 32, 0xC77C]

/-- replace(backslash-s+ backslash-S* dollar, ""): when the list contains
any whitespace, remove the trailing non-whitespace run together with the
whitespace run right before it; otherwise the regex has no match and the
list is unchanged. -/
def dropTrailingWordAndSpace (l : List Nat) : List Nat :=
  if l.any isSpace then
    (((l.reverse.dropWhile (fun c => !(isSpace c))).dropWhile isSpace)).reverse
  else l

/-- Title repair of postprocess: trim; empty falls back to the placeholder;
length below TITLE_MIN yields the placeholder; length above TITLE_MAX is
cut at TITLE_MAX, stripped of its trailing partial word, trimmed, and an
ellipsis (U+2026) is appended. -/
def repairTitle (raw : List Nat) : List Nat :=
  let t0 := trimL raw
  let t1 := if t0.length = 0 then placeholderTitle else t0
  if t1.length < TITLE_MIN then placeholderTitle
  else if TITLE_MAX < t1.length then
    trimL (dropTrailingWordAndSpace (t1.take TITLE_MAX)) ++ [0x2026]
  else t1

structure DateTime where
  year : Nat
  month : Nat
  day : Nat
  hour : Nat
  minute : Nat
deriving Repr, DecidableEq

/-- Gregorian leap-year rule (as implemented by the JS Date object). -/
def isLeap (y : Nat) : Bool :=
  (y % 4 == 0 && y % 100 != 0) || y % 400 == 0

def daysInMonth (y m : Nat) : Nat :=
  if m = 2 then (if isLeap y then 29 else 28)
  else if m = 4 ∨ m = 6 ∨ m = 9 ∨ m = 11 then 30
  else 31

/-- Well-formed calendar date-time with minute resolution (the resolution
of the local "YYYY-MM-DDTHH:mm" strings this core exchanges). -/
def DateTime.WF (dt : DateTime) : Prop :=
  1 ≤ dt.year ∧ 1 ≤ dt.month ∧ dt.month ≤ 12 ∧ 1 ≤ dt.day ∧
  dt.day ≤ daysInMonth dt.year dt.month ∧ dt.hour ≤ 23 ∧ dt.minute ≤ 59

instance (dt : DateTime) : Decidable dt.WF := by
  unfold DateTime.WF
  infer_instance

/-- Day-of-year offset of the first of the month in the March-based year
(Howard Hinnant's civil-calendar formula, as used to model JS MakeDay). -/
def doy (m : Nat) : Nat :=
  (153 * (if 2 < m then m - 3 else m + 9) + 2) / 5

/-- Number of leap days up to the March-based year n. -/
def leaps (n : Nat) : Nat :=
  n / 4 + n / 400 - n / 100

/-- Proleptic-Gregorian day number of a date (0 at 0000-03-01); the JS Date
day number differs from this by a fixed offset, so all order comparisons
coincide. -/
def daysOf (dt : DateTime) : Nat :=
  let y := if dt.month ≤ 2 then dt.year - 1 else dt.year
  365 * y + leaps y + doy dt.month + (dt.day - 1)

/-- Date.prototype.getDay: 0 = Sunday .. 6 = Saturday.  The day number
719468 (1970-01-01) was a Thursday, hence the +3 shift. -/
def dowOf (dt : DateTime) : Nat :=
  (daysOf dt + 3) % 7

/-- Epoch-shifted milliseconds of a local date-time. -/
def msOf (dt : DateTime) : Nat :=
  ((daysOf dt * 24 + dt.hour) * 60 + dt.minute) * 60000

/-- Date.prototype.setFullYear on a well-formed date: the day-of-month is
kept when valid in the target year and otherwise overflows into the next
month (only Feb 29 of a leap year can overflow, landing on Mar 1). -/
def setYearJs (dt : DateTime) (y : Nat) : DateTime :=
  if dt.day ≤ daysInMonth y dt.month then
    ⟨y, dt.month, dt.day, dt.hour, dt.minute⟩
  else
    ⟨y, dt.month + 1, dt.day - daysInMonth y dt.month, dt.hour, dt.minute⟩

def pad2 (n : Nat) : String :=
  if n < 10 then "0" ++ toString n else toString n

/-- Serialization of the corrected due date: local "YYYY-MM-DDTHH:mm"
(year unpadded, as produced by getFullYear; other fields padded to 2). -/
def serializeLocal (dt : DateTime) : String :=
  toString dt.year ++ "-" ++ pad2 dt.month ++ "-" ++ pad2 dt.day ++ "T" ++
    pad2 dt.hour ++ ":" ++ pad2 dt.minute

/-- Due-date correction of postprocess: an unparseable or absent raw due
date yields null; a parsed instant strictly beyond one year after now
(now with setFullYear year+1) has its year set to the current year via
setFullYear; the result is serialized to local "YYYY-MM-DDTHH:mm". -/
def postprocessDue (rawDue : Option DateTime) (now : DateTime) :
    Option String :=
  match rawDue with
  | none => none
  | some parsed =>
    let oneYearLater := setYearJs now (now.year + 1)
    let corrected :=
      if msOf oneYearLater < msOf parsed then setYearJs parsed now.year
      else parsed
    some (serializeLocal corrected)

/-- TodoSummaryInput of the source; due_at is the parsed structured form of
the local "YYYY-MM-DDTHH:mm" string (null becomes none). -/
structure TodoSummaryInput where
  title : String
  completed : Bool
  due_at : Option DateTime
  priority : String
  category : Option String
  created_at : String
deriving Repr, DecidableEq

/-- rate of the source: Math.round(completed / total * 100) for positive
total and 0 otherwise, with Math.round(x) = floor(x + 1/2) expressed as
exact rational rounding. -/
def rate (completed total : Nat) : Nat :=
  if 0 < total then (200 * completed + total) / (2 * total) else 0

/-- Category key: the JS expression t.category or-else the "uncategorized"
sentinel, where both null and the empty string fall back to the sentinel. -/
def catKey (t : TodoSummaryInput) : String :=
  match t.category with
  | none => "미분류"
  | some c => if c = "" then "미분류" else c

/-- Overdue test of the source: not completed, has a due time, and the due
instant is strictly before now. -/
def overdueB (now : DateTime) (t : TodoSummaryInput) : Bool :=
  !t.completed && t.due_at.any (fun d => msOf d < msOf now)

/-- Membership in todayTasks: due_at starts with the local "YYYY-MM-DD" of
now, i.e. (for the canonical local strings this API exchanges) the due date
has the same calendar date components as now. -/
def sameLocalDate (now d : DateTime) : Bool :=
  d.year == now.year && d.month == now.month && d.day == now.day

/-- Days subtracted from now to reach this week's Monday:
dayOfWeek == 0 ? 6 : dayOfWeek - 1. -/
def weekOffset (now : DateTime) : Nat :=
  if dowOf now = 0 then 6 else dowOf now - 1

/-- Epoch-shifted milliseconds of this week's Monday 00:00:00.000. -/
def weekMondayMs (now : DateTime) : Int :=
  ((daysOf now : Int) - (weekOffset now : Int)) * 86400000

/-- Epoch-shifted milliseconds of this week's Sunday 23:59:59.999. -/
def weekSundayMs (now : DateTime) : Int :=
  weekMondayMs now + 6 * 86400000 + 86399999

/-- Membership in weekTasks: the due instant lies in the Monday-Sunday
window of now. -/
def inWeekB (now : DateTime) (d : DateTime) : Bool :=
  weekMondayMs now ≤ (msOf d : Int) && (msOf d : Int) ≤ weekSundayMs now

/-- Increment of a string-keyed counter record at key k. -/
def bumpKey (m : String → Nat) (k : String) : String → Nat :=
  fun s => if s = k then m s + 1 else m s

/-- One step of the categoryCompletion forEach: bump total, bump completed
when completed, bump overdue when currently overdue, all at the category
key of the todo. -/
def categoryStep (now : DateTime) (m : String → Nat × Nat × Nat)
    (t : TodoSummaryInput) : String → Nat × Nat × Nat :=
  fun s =>
    if s = catKey t then
      ((m s).1 + 1,
       (m s).2.1 + (if t.completed then 1 else 0),
       (m s).2.2 + (if overdueB now t then 1 else 0))
    else m s

/-- One step of the timeSlotDist forEach: the if/else-if chain on the hour
component of the due time (no due time leaves the counters unchanged). -/
def slotStep (acc : Nat × Nat × Nat × Nat) (t : TodoSummaryInput) :
    Nat × Nat × Nat × Nat :=
  match t.due_at with
  | none => acc
  | some d =>
    if d.hour < 12 then (acc.1 + 1, acc.2.1, acc.2.2.1, acc.2.2.2)
    else if d.hour < 17 then (acc.1, acc.2.1 + 1, acc.2.2.1, acc.2.2.2)
    else if d.hour < 21 then (acc.1, acc.2.1, acc.2.2.1 + 1, acc.2.2.2)
    else (acc.1, acc.2.1, acc.2.2.1, acc.2.2.2 + 1)

/-- Array element increment dayOfWeekDist[i]++. -/
def bumpIdx (l : List Nat) (i : Nat) : List Nat :=
  l.set i (l.getD i 0 + 1)

/-- One step of the dayOfWeekDist forEach. -/
def dowStep (acc : List Nat) (t : TodoSummaryInput) : List Nat :=
  match t.due_at with
  | none => acc
  | some d => bumpIdx acc (dowOf d)

/-- PeriodStats of the source (the fields whose values this development
reasons about; prompt-only plumbing such as the formatted text block is not
modelled). -/
structure PeriodStats where
  total : Nat
  completed : Nat
  inProgress : Nat
  overdue : Nat
  completionRate : Nat
  todayTasks : List TodoSummaryInput
  weekTasks : List TodoSummaryInput
  completedThisWeek : Nat
  priorityCompletion : String → Nat × Nat × Nat
  categoryCompletion : String → Nat × Nat × Nat
  deadlineAdherenceRate : Nat
  timeSlotDist : Nat × Nat × Nat × Nat
  dayOfWeekDist : List Nat
  overdueByCategory : String → Nat
  overdueByPriority : String → Nat

/-- computeStats of the source over the structured embedding. -/
def computeStats (todos : List TodoSummaryInput) (now : DateTime) :
    PeriodStats :=
  let total := todos.length
  let completed := todos.countP (fun t => t.completed)
  let todayTasks := todos.filter (fun t => t.due_at.any (sameLocalDate now))
  let weekTasks := todos.filter (fun t => t.due_at.any (inWeekB now))
  { total := total
    completed := completed
    inProgress := total - completed
    overdue := todos.countP (overdueB now)
    completionRate := rate completed total
    todayTasks := todayTasks
    weekTasks := weekTasks
    completedThisWeek :=
      todos.countP (fun t => t.completed && t.due_at.any (inWeekB now))
    priorityCompletion := fun p =>
      if p = "high" ∨ p = "medium" ∨ p = "low" then
        let tot := todos.countP (fun t => t.priority == p)
        let comp := todos.countP (fun t => t.priority == p && t.completed)
        (tot, comp, rate comp tot)
      else (0, 0, 0)
    categoryCompletion := todos.foldl (categoryStep now) (fun _ => (0, 0, 0))
    deadlineAdherenceRate :=
      rate (todos.countP (fun t => t.due_at.isSome && t.completed))
        (todos.countP (fun t => t.due_at.isSome))
    timeSlotDist := todos.foldl slotStep (0, 0, 0, 0)
    dayOfWeekDist := todos.foldl dowStep (List.replicate 7 0)
    overdueByCategory :=
      (todos.filter (overdueB now)).foldl
        (fun m t => bumpKey m (catKey t)) (fun _ => 0)
    overdueByPriority :=
      (todos.filter (overdueB now)).foldl
        (fun m t => bumpKey m t.priority) (fun _ => 0) }

/-- The todos field of a summarize request body: either not an array at all
or a list of todo inputs. -/
inductive TodosField where
  | notArray
  | arr (todos : List TodoSummaryInput)

/-- Outcome of the summarize endpoint validation stage: an HTTP 400
rejection, or the computed stats handed to the model invocation. -/
inductive SummarizeStep where
  | rejected (status : Nat) (msg : String)
  | invokeModel (stats : PeriodStats)

/-- Input-validation stage of the summarize POST handler, in source order:
array check, period check, emptiness check, 200-item cap; past them the
handler computes stats and invokes the model. -/
def summarizeValidate (todosF : TodosField) (period : String)
    (now : DateTime) : SummarizeStep :=
  match todosF with
  | .notArray => .rejected 400 "할 일 데이터 형식이 올바르지 않습니다."
  | .arr todos =>
    if ¬(period = "today" ∨ period = "week") then
      .rejected 400 "분석 기간이 올바르지 않습니다."
    else if todos.length = 0 then
      .rejected 400 "분석할 할 일이 없습니다. 할 일을 먼저 추가해주세요."
    else if 200 < todos.length then
      .rejected 400 "한 번에 분석할 수 있는 최대 개수(200개)를 초과했습니다."
    else .invokeModel (computeStats todos now)

/-- Concrete input "ab<" (dangerous character at the end). -/
def cexFirstCall : List Nat := [97, 98, 60]

/-- Concrete input "x<yz" (dangerous character at index 1). -/
def cexSecondCall : List Nat := [120, 60, 121, 122]

/-- Concrete valid input "a FULLWIDTH-LESS-THAN b" refuting idempotence of
preprocessing. -/
def cexFullwidth : List Nat := [97, 0xFF1C, 98]

/-- Concrete 150-character title: 60 letters, a space, then 89 letters. -/
def exLongTitle : List Nat :=
  List.replicate 60 97 ++ [32] ++ List.replicate 89 98

theorem foldl_bumpKey (key : TodoSummaryInput → String)
    (l : List TodoSummaryInput) (m : String → Nat) (k : String) :
    (l.foldl (fun m t => bumpKey m (key t)) m) k =
      m k + l.countP (fun t => key t == k) := by
  induction l generalizing m with
  | nil => simp
  | cons t ts ih =>
    rw [List.foldl_cons, ih, List.countP_cons]
    simp only [bumpKey, beq_iff_eq]
    by_cases h : k = key t
    · simp [h, if_pos]
      omega
    · have h' : ¬(key t = k) := fun e => h e.symm
      simp [h, h']

theorem foldl_categoryStep (now : DateTime) (l : List TodoSummaryInput)
    (m : String → Nat × Nat × Nat) (k : String) :
    (l.foldl (categoryStep now) m) k =
      ((m k).1 + l.countP (fun t => catKey t == k),
       (m k).2.1 + l.countP (fun t => catKey t == k && t.completed),
       (m k).2.2 + l.countP (fun t => catKey t == k && overdueB now t)) := by
  induction l generalizing m with
  | nil => simp
  | cons t ts ih =>
    rw [List.foldl_cons, ih]
    simp only [List.countP_cons, categoryStep, beq_iff_eq, Bool.and_eq_true,
      decide_eq_true_eq]
    by_cases h : k = catKey t
    · have h' : catKey t = k := h.symm
      simp only [if_pos h, h']
      by_cases hc : t.completed <;> by_cases ho : overdueB now t <;>
        simp [hc, ho] <;> omega
    · have h' : ¬(catKey t = k) := fun e => h e.symm
      simp [h, h']

theorem bumpIdx_length (l : List Nat) (i : Nat) :
    (bumpIdx l i).length = l.length := by
  simp [bumpIdx]

theorem bumpIdx_getD (l : List Nat) (i j : Nat) :
    (bumpIdx l i).getD j 0 =
      if j = i ∧ i < l.length then l.getD j 0 + 1 else l.getD j 0 := by
  unfold bumpIdx
  by_cases hj : j = i
  · subst hj
    by_cases hi : j < l.length
    · simp [List.getD, List.getElem?_set_self', hi, List.getElem?_eq_getElem hi]
    · simp [List.getD, List.set_eq_of_length_le (by omega : l.length ≤ j), hi]
  · simp [List.getD, List.getElem?_set_ne (fun e => hj e.symm), hj]

theorem bumpIdx_sum (l : List Nat) (i : Nat) (hi : i < l.length) :
    (bumpIdx l i).sum = l.sum + 1 := by
  induction l generalizing i with
  | nil => simp at hi
  | cons a t ih =>
    cases i with
    | zero => simp [bumpIdx]; omega
    | succ n =>
      have hn : n < t.length := by simpa using hi
      simp only [bumpIdx, List.set_cons_succ, List.getD_cons_succ, List.sum_cons]
      have := ih n hn
      simp only [bumpIdx] at this
      omega

theorem dowOf_lt (d : DateTime) : dowOf d < 7 :=
  Nat.mod_lt _ (by norm_num)

theorem dowStep_none (acc : List Nat) (t : TodoSummaryInput)
    (h : t.due_at = none) : dowStep acc t = acc := by
  simp [dowStep, h]

theorem dowStep_some (acc : List Nat) (t : TodoSummaryInput) (d : DateTime)
    (h : t.due_at = some d) : dowStep acc t = bumpIdx acc (dowOf d) := by
  simp [dowStep, h]

theorem foldl_dowStep_length (l : List TodoSummaryInput) (acc : List Nat) :
    (l.foldl dowStep acc).length = acc.length := by
  induction l generalizing acc with
  | nil => rfl
  | cons t ts ih =>
    rw [List.foldl_cons]
    cases hdue : t.due_at with
    | none => rw [dowStep_none acc t hdue, ih]
    | some d => rw [dowStep_some acc t d hdue, ih, bumpIdx_length]

theorem foldl_dowStep_sum (l : List TodoSummaryInput) (acc : List Nat)
    (h7 : acc.length = 7) :
    (l.foldl dowStep acc).sum =
      acc.sum + l.countP (fun t => t.due_at.isSome) := by
  induction l generalizing acc with
  | nil => simp
  | cons t ts ih =>
    rw [List.foldl_cons, List.countP_cons]
    cases hdue : t.due_at with
    | none => rw [dowStep_none acc t hdue, ih acc h7]; simp [hdue]
    | some d =>
      rw [dowStep_some acc t d hdue,
        ih (bumpIdx acc (dowOf d)) (by rw [bumpIdx_length]; exact h7),
        bumpIdx_sum acc (dowOf d) (by rw [h7]; exact dowOf_lt d)]
      simp [hdue]
      omega

theorem foldl_dowStep_getD (l : List TodoSummaryInput) (acc : List Nat)
    (i : Nat) (h7 : acc.length = 7) :
    (l.foldl dowStep acc).getD i 0 =
      acc.getD i 0 + l.countP (fun t => t.due_at.any (fun d => dowOf d == i)) := by
  induction l generalizing acc with
  | nil => simp
  | cons t ts ih =>
    rw [List.foldl_cons, List.countP_cons]
    cases hdue : t.due_at with
    | none => rw [dowStep_none acc t hdue, ih acc h7]; simp [hdue]
    | some d =>
      rw [dowStep_some acc t d hdue,
        ih (bumpIdx acc (dowOf d)) (by rw [bumpIdx_length]; exact h7),
        bumpIdx_getD]
      simp only [hdue, Option.any_some, beq_iff_eq]
      by_cases hi : i = dowOf d
      · have hlt : dowOf d < acc.length := by rw [h7]; exact dowOf_lt d
        simp [hi, hlt]
        omega
      · have h' : ¬(dowOf d = i) := fun e => hi e.symm
        simp [hi, h']

theorem slotStep_none (acc : Nat × Nat × Nat × Nat) (t : TodoSummaryInput)
    (h : t.due_at = none) : slotStep acc t = acc := by
  simp [slotStep, h]

theorem slotStep_some (acc : Nat × Nat × Nat × Nat) (t : TodoSummaryInput)
    (d : DateTime) (h : t.due_at = some d) :
    (slotStep acc t).1 + (slotStep acc t).2.1 + (slotStep acc t).2.2.1 +
      (slotStep acc t).2.2.2 =
      acc.1 + acc.2.1 + acc.2.2.1 + acc.2.2.2 + 1 := by
  simp only [slotStep, h]
  by_cases h1 : d.hour < 12
  · simp [h1]; omega
  · by_cases h2 : d.hour < 17
    · simp [h1, h2]; omega
    · by_cases h3 : d.hour < 21
      · simp [h1, h2, h3]; omega
      · simp [h1, h2, h3]; omega

theorem foldl_slotStep (l : List TodoSummaryInput)
    (acc : Nat × Nat × Nat × Nat) :
    (l.foldl slotStep acc).1 + (l.foldl slotStep acc).2.1 +
      (l.foldl slotStep acc).2.2.1 + (l.foldl slotStep acc).2.2.2 =
      acc.1 + acc.2.1 + acc.2.2.1 + acc.2.2.2 +
        l.countP (fun t => t.due_at.isSome) := by
  induction l generalizing acc with
  | nil => simp
  | cons t ts ih =>
    rw [List.foldl_cons, List.countP_cons, ih (slotStep acc t)]
    cases hdue : t.due_at with
    | none => rw [slotStep_none acc t hdue]; simp [hdue]
    | some d =>
      rw [slotStep_some acc t d hdue]
      simp [hdue]
      omega

theorem getD_replicate_zero (i : Nat) :
    (List.replicate 7 (0 : Nat)).getD i 0 = 0 := by
  unfold List.getD
  rw [List.get?_eq_getElem?, List.getElem?_replicate]
  by_cases h : i < 7 <;> simp [h]

/-- C1: computeStats totals: completed + inProgress equals total, total is
the list length, completed counts the completed todos, and the completion
rate is round(completed / total * 100) for a nonempty list and 0 for an
empty one. -/
theorem computeStats_totals_invariant (todos : List TodoSummaryInput)
    (now : DateTime) :
    (computeStats todos now).total = todos.length ∧
    (computeStats todos now).completed =
      todos.countP (fun t => t.completed) ∧
    (computeStats todos now).completed + (computeStats todos now).inProgress =
      (computeStats todos now).total ∧
    ((computeStats todos now).completionRate : ℤ) =
      if 0 < (computeStats todos now).total then
        round (((computeStats todos now).completed : ℚ) /
          ((computeStats todos now).total : ℚ) * 100)
      else 0 := by
  refine ⟨rfl, rfl, ?_, ?_⟩
  · have h := List.countP_le_length (p := fun t => t.completed) (l := todos)
    simp only [computeStats]
    omega
  · simp only [computeStats]
    set c := todos.countP (fun t => t.completed) with hc
    set n := todos.length with hn
    by_cases hpos : 0 < n
    · rw [if_pos hpos]
      unfold rate
      rw [if_pos hpos]
      have hne : (n : ℚ) ≠ 0 := by positivity
      have harg : (c : ℚ) / (n : ℚ) * 100 + 1 / 2 =
          (((200 * c + n : ℕ) : ℤ) : ℚ) / ((2 * n : ℕ) : ℚ) := by
        push_cast
        field_simp
        ring
      rw [round_eq, harg, Rat.floor_intCast_div_natCast]
      exact Int.natCast_div _ _
    · rw [if_neg hpos]
      unfold rate
      rw [if_neg hpos]
      rfl

/-- C2: a todo counts as overdue exactly when it is not completed, has a
due time, and that instant is strictly before now; the same criterion
drives the per-category overdue counts inside categoryCompletion and the
overdueByCategory / overdueByPriority breakdowns. -/
theorem computeStats_overdue_characterization (todos : List TodoSummaryInput)
    (now : DateTime) :
    ((computeStats todos now).overdue =
      todos.countP (fun t =>
        !t.completed && t.due_at.any (fun d => msOf d < msOf now))) ∧
    (∀ k, ((computeStats todos now).categoryCompletion k).2.2 =
      todos.countP (fun t => catKey t == k && overdueB now t)) ∧
    (∀ k, (computeStats todos now).overdueByCategory k =
      todos.countP (fun t => overdueB now t && catKey t == k)) ∧
    (∀ p, (computeStats todos now).overdueByPriority p =
      todos.countP (fun t => overdueB now t && t.priority == p)) := by
  refine ⟨rfl, ?_, ?_, ?_⟩
  · intro k
    simp only [computeStats]
    rw [foldl_categoryStep]
    simp
  · intro k
    simp only [computeStats]
    rw [foldl_bumpKey, List.countP_filter]
    simp [Bool.and_comm]
  · intro p
    simp only [computeStats]
    rw [foldl_bumpKey, List.countP_filter]
    simp [Bool.and_comm]

/-- C10: the time-of-day distribution and the day-of-week distribution each
partition exactly the todos that have a due time: the four slot counters
sum to the number of todos with a due time, the seven weekday counters sum
to the same number, and each weekday counter counts precisely the todos
whose due time falls on that weekday. -/
theorem computeStats_distribution_partition (todos : List TodoSummaryInput)
    (now : DateTime) :
    ((computeStats todos now).timeSlotDist.1 +
      (computeStats todos now).timeSlotDist.2.1 +
      (computeStats todos now).timeSlotDist.2.2.1 +
      (computeStats todos now).timeSlotDist.2.2.2 =
      todos.countP (fun t => t.due_at.isSome)) ∧
    ((computeStats todos now).dayOfWeekDist.sum =
      todos.countP (fun t => t.due_at.isSome)) ∧
    ((computeStats todos now).dayOfWeekDist.length = 7) ∧
    (∀ i, (computeStats todos now).dayOfWeekDist.getD i 0 =
      todos.countP (fun t => t.due_at.any (fun d => dowOf d == i))) := by
  refine ⟨?_, ?_, ?_, ?_⟩
  · simp only [computeStats]
    rw [foldl_slotStep]
    simp
  · simp only [computeStats]
    rw [foldl_dowStep_sum _ _ (by simp)]
    simp
  · simp only [computeStats]
    rw [foldl_dowStep_length]
    simp
  · intro i
    simp only [computeStats]
    rw [foldl_dowStep_getD _ _ _ (by simp), getD_replicate_zero]
    simp

/-- C4: todayTasks holds exactly the todos whose due date has the calendar
date of now, and weekTasks exactly those whose due instant lies in the
local window from Monday 00:00:00.000 to Sunday 23:59:59.999 around now,
with Monday obtained by going back (dayOfWeek == 0 ? 6 : dayOfWeek - 1)
days. -/
theorem computeStats_period_lists (todos : List TodoSummaryInput)
    (now : DateTime) (t : TodoSummaryInput) :
    (t ∈ (computeStats todos now).todayTasks ↔
      t ∈ todos ∧ ∃ d, t.due_at = some d ∧ d.year = now.year ∧
        d.month = now.month ∧ d.day = now.day) ∧
    (t ∈ (computeStats todos now).weekTasks ↔
      t ∈ todos ∧ ∃ d, t.due_at = some d ∧
        weekMondayMs now ≤ (msOf d : Int) ∧
        (msOf d : Int) ≤ weekSundayMs now) ∧
    weekMondayMs now =
      ((daysOf now : Int) -
        (if dowOf now = 0 then 6 else (dowOf now : Int) - 1)) * 86400000 ∧
    weekSundayMs now = weekMondayMs now + 6 * 86400000 + 86399999 := by
  refine ⟨?_, ?_, ?_, rfl⟩
  · simp only [computeStats, List.mem_filter]
    cases hdue : t.due_at with
    | none => simp [hdue]
    | some d =>
      simp [hdue, sameLocalDate, and_assoc]
  · simp only [computeStats, List.mem_filter]
    cases hdue : t.due_at with
    | none => simp [hdue]
    | some d =>
      simp [hdue, inWeekB, and_assoc]
  · unfold weekMondayMs weekOffset
    by_cases h : dowOf now = 0
    · simp [h]
    · have h1 : 1 ≤ dowOf now := by omega
      rw [if_neg h, if_neg h]
      push_cast [Nat.cast_sub h1]
      ring

/-- C8: validate fails on every string whose trimmed form contains a
dangerous character, and the parse endpoint then answers HTTP 400 without
the text ever reaching the model. -/
theorem validateInput_rejects_dangerous (text : List Nat)
    (h : ∃ c ∈ trimL text, isDangerous c = true) :
    (validateInput text).ok = false ∧
    ∃ msg, parseGate text = .rejected 400 msg := by
  have hany : (trimL text).any isDangerous = true := by
    obtain ⟨c, hc, hd⟩ := h
    exact List.any_eq_true.mpr ⟨c, hc, hd⟩
  have hok : (validateInput text).ok = false := by
    unfold validateInput
    by_cases h1 : (trimL text).length = 0
    · simp [h1]
    · by_cases h2 : (trimL text).length < MIN_LENGTH
      · simp [h1, h2]
      · by_cases h3 : MAX_LENGTH < text.length
        · simp [h1, h2, h3]
        · simp [h1, h2, h3, hany]
  refine ⟨hok, ?_⟩
  refine ⟨(validateInput text).error.getD "", ?_⟩
  unfold parseGate
  rw [if_neg (by rw [hok]; exact Bool.false_ne_true)]

/-- Witness for C8 at the concrete dangerous input "x<yz". -/
theorem validateInput_rejects_dangerous_witness :
    (∃ c ∈ trimL cexSecondCall, isDangerous c = true) ∧
    ((validateInput cexSecondCall).ok = false ∧
      ∃ msg, parseGate cexSecondCall = .rejected 400 msg) :=
  ⟨by decide, validateInput_rejects_dangerous cexSecondCall (by decide)⟩

/-- C9: the summarize endpoint validation short-circuits with HTTP 400
exactly on a non-array todos field, an invalid period, an empty list
(error: nothing to analyze), or more than 200 todos (error: 200-item cap),
and otherwise hands the computed stats to the model invocation. -/
theorem summarizeValidate_spec (period : String) (now : DateTime) :
    (summarizeValidate .notArray period now =
      .rejected 400 "할 일 데이터 형식이 올바르지 않습니다.") ∧
    (∀ todos : List TodoSummaryInput, ¬(period = "today" ∨ period = "week") →
      summarizeValidate (.arr todos) period now =
        .rejected 400 "분석 기간이 올바르지 않습니다.") ∧
    (∀ todos : List TodoSummaryInput, (period = "today" ∨ period = "week") →
      todos.length = 0 →
      summarizeValidate (.arr todos) period now =
        .rejected 400 "분석할 할 일이 없습니다. 할 일을 먼저 추가해주세요.") ∧
    (∀ todos : List TodoSummaryInput, (period = "today" ∨ period = "week") →
      200 < todos.length →
      summarizeValidate (.arr todos) period now =
        .rejected 400 "한 번에 분석할 수 있는 최대 개수(200개)를 초과했습니다.") ∧
    (∀ todos : List TodoSummaryInput, (period = "today" ∨ period = "week") →
      1 ≤ todos.length → todos.length ≤ 200 →
      summarizeValidate (.arr todos) period now =
        .invokeModel (computeStats todos now)) := by
  refine ⟨rfl, ?_, ?_, ?_, ?_⟩
  · intro todos hp
    simp only [summarizeValidate]
    rw [if_pos hp]
  · intro todos hp h0
    simp only [summarizeValidate]
    rw [if_neg (not_not_intro hp), if_pos h0]
  · intro todos hp hcap
    simp only [summarizeValidate]
    rw [if_neg (not_not_intro hp), if_neg (by omega), if_pos hcap]
  · intro todos hp h1 h200
    simp only [summarizeValidate]
    rw [if_neg (not_not_intro hp), if_neg (by omega), if_neg (by omega)]

/-- Witness for C9 at the concrete empty request. -/
theorem summarizeValidate_spec_witness :
    summarizeValidate (.arr []) "today" ⟨2026, 2, 17, 9, 0⟩ =
      .rejected 400 "분석할 할 일이 없습니다. 할 일을 먼저 추가해주세요." :=
  (summarizeValidate_spec "today" ⟨2026, 2, 17, 9, 0⟩).2.2.1 [] (Or.inl rfl) rfl

/-- C5 is refuted by the code: the dangerous-character regex is a
module-level global-flagged regex used with RegExp.test, so its persistent
lastIndex makes validateInput history-dependent.  After validating "ab<"
(which leaves lastIndex = 3), validating "x<yz" succeeds even though a
fresh validation of "x<yz" rejects it for its dangerous character. -/
theorem validateInput_global_state_bug :
    (∃ c ∈ trimL cexSecondCall, isDangerous c = true) ∧
    (validateInputSt cexFirstCall 0).1.ok = false ∧
    (validateInputSt cexSecondCall ((validateInputSt cexFirstCall 0).2)).1.ok
      = true ∧
    (validateInputSt cexSecondCall 0).1.ok = false := by
  decide

theorem mem_trimL {c : Nat} {l : List Nat} (h : c ∈ trimL l) : c ∈ l := by
  unfold trimL at h
  rw [List.mem_reverse] at h
  have h2 : c ∈ (l.dropWhile isSpace).reverse :=
    (List.dropWhile_sublist isSpace).mem h
  rw [List.mem_reverse] at h2
  exact (List.dropWhile_sublist isSpace).mem h2

theorem mem_collapseWs {c : Nat} :
    ∀ {l : List Nat}, c ∈ collapseWs l → c = 32 ∨ c ∈ l := by
  intro l
  induction l with
  | nil => intro h; simp [collapseWs] at h
  | cons a tl ih =>
    cases tl with
    | nil =>
      intro h
      by_cases hs : isSpace a
      · simp [collapseWs, hs] at h
        exact Or.inl h
      · simp [collapseWs, hs] at h
        exact Or.inr (by simp [h])
    | cons b rest =>
      intro h
      by_cases hs : isSpace a
      · by_cases hb : isSpace b
        · simp only [collapseWs, if_pos hs, if_pos hb] at h
          rcases ih h with h32 | hm
          · exact Or.inl h32
          · exact Or.inr (List.mem_cons_of_mem a hm)
        · simp only [collapseWs, if_pos hs, if_neg hb] at h
          rcases List.mem_cons.mp h with h32 | hm
          · exact Or.inl h32
          · rcases ih hm with h32 | hm'
            · exact Or.inl h32
            · exact Or.inr (List.mem_cons_of_mem a hm')
      · simp only [collapseWs, if_neg hs] at h
        rcases List.mem_cons.mp h with ha | hm
        · exact Or.inr (by simp [ha])
        · rcases ih hm with h32 | hm'
          · exact Or.inl h32
          · exact Or.inr (List.mem_cons_of_mem a hm')

theorem dropWhile_dropWhile (p : Nat → Bool) (l : List Nat) :
    (l.dropWhile p).dropWhile p = l.dropWhile p := by
  induction l with
  | nil => rfl
  | cons a t ih =>
    by_cases h : p a
    · simp [List.dropWhile_cons, h, ih]
    · simp [List.dropWhile_cons, h]

theorem head_dropWhile_false (p : Nat → Bool) {l : List Nat} :
    ∀ {a : Nat} {t : List Nat}, l.dropWhile p = a :: t → p a = false := by
  induction l with
  | nil => intro a t h; simp at h
  | cons x xs ih =>
    intro a t h
    by_cases hx : p x
    · rw [List.dropWhile_cons_of_pos hx] at h
      exact ih h
    · rw [List.dropWhile_cons_of_neg hx] at h
      cases h
      simpa using hx

theorem trimL_prefix_decomp (l : List Nat) :
    l.dropWhile isSpace =
      trimL l ++ ((l.dropWhile isSpace).reverse.takeWhile isSpace).reverse := by
  conv_lhs => rw [← List.reverse_reverse (l.dropWhile isSpace),
    ← List.takeWhile_append_dropWhile isSpace (l.dropWhile isSpace).reverse]
  rw [List.reverse_append]
  rfl

theorem trimL_idem (l : List Nat) : trimL (trimL l) = trimL l := by
  have hA : (trimL l).dropWhile isSpace = trimL l := by
    cases hm : trimL l with
    | nil => rfl
    | cons a t =>
      have hy := trimL_prefix_decomp l
      rw [hm, List.cons_append] at hy
      have ha : isSpace a = false := head_dropWhile_false isSpace hy
      rw [List.dropWhile_cons_of_neg (by simp [ha])]
  have hB : (trimL l).reverse.dropWhile isSpace = (trimL l).reverse := by
    have hrev : (trimL l).reverse =
        (l.dropWhile isSpace).reverse.dropWhile isSpace := by
      unfold trimL
      rw [List.reverse_reverse]
    rw [hrev, dropWhile_dropWhile]
  show (((trimL l).dropWhile isSpace).reverse.dropWhile isSpace).reverse = trimL l
  rw [hA, hB, List.reverse_reverse]

theorem collapsedB_tail {x : Nat} {rest : List Nat}
    (h : collapsedB (x :: rest) = true) : collapsedB rest = true := by
  cases rest with
  | nil => rfl
  | cons y t =>
    simp only [collapsedB, Bool.and_eq_true] at h
    exact h.2

theorem collapsedB_append_right {a b : List Nat}
    (h : collapsedB (a ++ b) = true) : collapsedB b = true := by
  induction a with
  | nil => exact h
  | cons x xs ih => exact ih (collapsedB_tail h)

theorem collapsedB_append_left {a : List Nat} :
    ∀ {b : List Nat}, collapsedB (a ++ b) = true → collapsedB a = true := by
  induction a with
  | nil => intro b _; rfl
  | cons x xs ih =>
    cases xs with
    | nil =>
      intro b h
      cases b with
      | nil => exact h
      | cons y t =>
        simp only [List.cons_append, List.nil_append, collapsedB,
          Bool.and_eq_true, Bool.or_eq_true] at h ⊢
        rcases h.1 with hn | hp
        · exact Or.inl hn
        · exact Or.inr (by simpa using hp.1)
    | cons y t =>
      intro b h
      simp only [List.cons_append, collapsedB, Bool.and_eq_true] at h ⊢
      exact ⟨h.1, ih (by simpa using h.2)⟩

theorem collapseWs_eq_self {l : List Nat} (h : collapsedB l = true) :
    collapseWs l = l := by
  induction l with
  | nil => rfl
  | cons a tl ih =>
    cases tl with
    | nil =>
      simp only [collapsedB, Bool.or_eq_true] at h
      by_cases hs : isSpace a
      · have ha : a = 32 := by
          rcases h with hn | he
          · simp [hs] at hn
          · simpa using he
        simp [collapseWs, hs, ha]
      · simp [collapseWs, hs]
    | cons b rest =>
      simp only [collapsedB, Bool.and_eq_true, Bool.or_eq_true] at h
      have hrest := ih (by exact h.2)
      by_cases hs : isSpace a
      · have hpair : a = 32 ∧ isSpace b = false := by
          rcases h.1 with hn | hp
          · simp [hs] at hn
          · simp only [Bool.and_eq_true, beq_iff_eq, Bool.not_eq_true'] at hp
            exact hp
        rw [collapseWs, if_pos hs, if_neg (by simp [hpair.2])]
        rw [hrest, hpair.1]
      · rw [collapseWs, if_neg hs, hrest]

theorem collapseWs_head {b : Nat} (rest : List Nat) (hb : isSpace b = false) :
    ∃ t, collapseWs (b :: rest) = b :: t := by
  cases rest with
  | nil => exact ⟨[], by simp [collapseWs, hb]⟩
  | cons r rs => exact ⟨collapseWs (r :: rs), by simp [collapseWs, hb]⟩

theorem collapsedB_collapseWs (l : List Nat) :
    collapsedB (collapseWs l) = true := by
  induction l with
  | nil => rfl
  | cons a tl ih =>
    cases tl with
    | nil =>
      by_cases hs : isSpace a
      · have hx : collapseWs [a] = [32] := by simp [collapseWs, hs]
        rw [hx]
        rfl
      · have hx : collapseWs [a] = [a] := by simp [collapseWs, hs]
        rw [hx]
        simp [collapsedB, hs]
    | cons b rest =>
      by_cases hs : isSpace a
      · by_cases hb : isSpace b
        · rw [collapseWs, if_pos hs, if_pos hb]
          exact ih
        · rw [collapseWs, if_pos hs, if_neg hb]
          obtain ⟨t, ht⟩ := collapseWs_head rest (by simpa using hb)
          rw [ht]
          rw [ht] at ih
          simp only [collapsedB, Bool.and_eq_true, Bool.or_eq_true]
          refine ⟨Or.inr ?_, ih⟩
          simp [hb]
      · rw [collapseWs, if_neg hs]
        cases hc : collapseWs (b :: rest) with
        | nil => simp [collapsedB, hs]
        | cons h0 t0 =>
          rw [hc] at ih
          simp only [collapsedB, Bool.and_eq_true, Bool.or_eq_true]
          exact ⟨Or.inl (by simp [hs]), ih⟩

theorem collapsedB_trimL {l : List Nat} (h : collapsedB l = true) :
    collapsedB (trimL l) = true := by
  have h1 : collapsedB (l.dropWhile isSpace) = true := by
    have := List.takeWhile_append_dropWhile isSpace l
    rw [← this] at h
    exact collapsedB_append_right h
  rw [trimL_prefix_decomp l] at h1
  exact collapsedB_append_left h1

theorem cleanChar_32 : CleanChar 32 := by decide

theorem clean_preprocess_eq {l : List Nat} (h : ∀ c ∈ l, CleanChar c) :
    preprocessText l = trimL (collapseWs (trimL l)) := by
  have hr1 : ∀ c ∈ trimL l, CleanChar c := fun c hc => h c (mem_trimL hc)
  have hr2 : ∀ c ∈ collapseWs (trimL l), CleanChar c := by
    intro c hc
    rcases mem_collapseWs hc with h32 | hm
    · rw [h32]; exact cleanChar_32
    · exact hr1 c hm
  have hfe : (collapseWs (trimL l)).filter (fun c => !(isEmoji c)) =
      collapseWs (trimL l) :=
    List.filter_eq_self.mpr (fun a ha => by simp [(hr2 a ha).1])
  have hr3 : ∀ c ∈ trimL (collapseWs (trimL l)), CleanChar c :=
    fun c hc => hr2 c (mem_trimL hc)
  have hfd : (trimL (collapseWs (trimL l))).filter (fun c => !(isDangerous c)) =
      trimL (collapseWs (trimL l)) :=
    List.filter_eq_self.mpr (fun a ha => by simp [(hr3 a ha).2.1])
  have hmap : (trimL (collapseWs (trimL l))).map toHalfwidth =
      trimL (collapseWs (trimL l)) := by
    have := List.map_congr_left
      (l := trimL (collapseWs (trimL l))) (f := toHalfwidth) (g := id)
      (fun a ha => by simp [toHalfwidth, (hr3 a ha).2.2])
    rw [this, List.map_id]
  show trimL (((trimL ((collapseWs (trimL l)).filter
      (fun c => !(isEmoji c)))).filter (fun c => !(isDangerous c))).map
      toHalfwidth) = _
  rw [hfe, hfd, hmap, trimL_idem]

theorem clean_preprocess_chars {l : List Nat} (h : ∀ c ∈ l, CleanChar c) :
    ∀ c ∈ preprocessText l, CleanChar c := by
  intro c hc
  rw [clean_preprocess_eq h] at hc
  rcases mem_collapseWs (mem_trimL hc) with h32 | hm
  · rw [h32]; exact cleanChar_32
  · exact h c (mem_trimL hm)

/-- C3 counterexample: the valid input "a FULLWIDTH-LESS-THAN b" passes
validation, but normalizing it twice differs from normalizing it once: the
fullwidth less-than survives the dangerous-character strip and is converted
to an ASCII less-than afterwards, which the second pass then strips. -/
theorem preprocess_not_idempotent :
    (validateInput cexFullwidth).ok = true ∧
    preprocessText (preprocessText cexFullwidth) ≠
      preprocessText cexFullwidth := by
  decide

/-- C3 amended: normalization is idempotent on inputs none of whose
characters is an emoji, a dangerous character, or a fullwidth character
(validation already guarantees the absence of dangerous characters; the
exclusions of emoji and fullwidth characters are forced by the
counterexample pattern). -/
theorem preprocess_idempotent_on_clean (l : List Nat)
    (h : ∀ c ∈ l, CleanChar c) :
    preprocessText (preprocessText l) = preprocessText l := by
  rw [clean_preprocess_eq (clean_preprocess_chars h)]
  rw [clean_preprocess_eq h]
  have hty : trimL (trimL (collapseWs (trimL l))) = trimL (collapseWs (trimL l)) :=
    trimL_idem _
  rw [hty]
  rw [collapseWs_eq_self (collapsedB_trimL (collapsedB_collapseWs (trimL l)))]
  exact hty

/-- Witness for the amended C3 at the concrete clean input "a b". -/
theorem preprocess_idempotent_on_clean_witness :
    (∀ c ∈ ([97, 32, 98] : List Nat), CleanChar c) ∧
    preprocessText (preprocessText [97, 32, 98]) =
      preprocessText [97, 32, 98] :=
  ⟨by decide, preprocess_idempotent_on_clean [97, 32, 98] (by decide)⟩

theorem trimL_length_le (l : List Nat) : (trimL l).length ≤ l.length := by
  unfold trimL
  calc ((l.dropWhile isSpace).reverse.dropWhile isSpace).reverse.length
      = ((l.dropWhile isSpace).reverse.dropWhile isSpace).length := by
        rw [List.length_reverse]
    _ ≤ (l.dropWhile isSpace).reverse.length :=
        (List.dropWhile_sublist isSpace).length_le
    _ = (l.dropWhile isSpace).length := by rw [List.length_reverse]
    _ ≤ l.length := (List.dropWhile_sublist isSpace).length_le

theorem dtws_length_le (l : List Nat) :
    (dropTrailingWordAndSpace l).length ≤ l.length := by
  unfold dropTrailingWordAndSpace
  by_cases h : l.any isSpace
  · rw [if_pos h]
    calc (((l.reverse.dropWhile (fun c => !(isSpace c))).dropWhile
        isSpace)).reverse.length
        = ((l.reverse.dropWhile (fun c => !(isSpace c))).dropWhile
            isSpace).length := by rw [List.length_reverse]
      _ ≤ (l.reverse.dropWhile (fun c => !(isSpace c))).length :=
          (List.dropWhile_sublist isSpace).length_le
      _ ≤ l.reverse.length :=
          (List.dropWhile_sublist (fun c => !(isSpace c))).length_le
      _ = l.length := by rw [List.length_reverse]
  · rw [if_neg h]

/-- C7: title repair: a trimmed title shorter than 2 characters becomes the
fixed placeholder; one longer than 100 characters becomes the 100-character
prefix cut back to the last whole-word boundary with an ellipsis appended,
yielding at most 101 characters ending in the ellipsis; anything else is
returned trimmed and otherwise unchanged. -/
theorem repairTitle_spec (raw : List Nat) :
    ((trimL raw).length < 2 → repairTitle raw = placeholderTitle) ∧
    (100 < (trimL raw).length →
      repairTitle raw =
        trimL (dropTrailingWordAndSpace ((trimL raw).take 100)) ++ [0x2026] ∧
      (repairTitle raw).length ≤ 101 ∧
      (repairTitle raw).getLast? = some 0x2026) ∧
    (2 ≤ (trimL raw).length → (trimL raw).length ≤ 100 →
      repairTitle raw = trimL raw) := by
  refine ⟨?_, ?_, ?_⟩
  · intro h
    unfold repairTitle
    by_cases h0 : (trimL raw).length = 0
    · simp [h0, placeholderTitle, TITLE_MIN, TITLE_MAX]
    · have h1 : (trimL raw).length < TITLE_MIN := h
      simp [h0, h1]
  · intro h
    have h0 : ¬((trimL raw).length = 0) := by omega
    have h1 : ¬((trimL raw).length < TITLE_MIN) := by
      unfold TITLE_MIN; omega
    have h2 : TITLE_MAX < (trimL raw).length := h
    have heq : repairTitle raw =
        trimL (dropTrailingWordAndSpace ((trimL raw).take 100)) ++ [0x2026] := by
      unfold repairTitle
      simp only [if_neg h0, if_neg h1, if_pos h2]
      rfl
    refine ⟨heq, ?_, ?_⟩
    · rw [heq, List.length_append]
      have hle : (trimL (dropTrailingWordAndSpace
          ((trimL raw).take 100))).length ≤ 100 := by
        calc (trimL (dropTrailingWordAndSpace ((trimL raw).take 100))).length
            ≤ (dropTrailingWordAndSpace ((trimL raw).take 100)).length :=
              trimL_length_le _
          _ ≤ ((trimL raw).take 100).length := dtws_length_le _
          _ ≤ 100 := by rw [List.length_take]; omega
      simp
      omega
    · rw [heq]
      exact List.getLast?_concat _
  · intro h2 h100
    unfold repairTitle
    have h0 : ¬((trimL raw).length = 0) := by omega
    have h1 : ¬((trimL raw).length < TITLE_MIN) := by
      unfold TITLE_MIN; omega
    have hle : ¬(TITLE_MAX < (trimL raw).length) := by
      unfold TITLE_MAX; omega
    simp [h0, h1, hle]

set_option maxRecDepth 40000 in
/-- Witness for C7: a 1-character title yields the placeholder and the
concrete 150-character title is truncated to 61 characters ending in the
ellipsis. -/
theorem repairTitle_spec_witness :
    ((trimL [97]).length < 2 ∧ repairTitle [97] = placeholderTitle) ∧
    (100 < (trimL exLongTitle).length ∧
      (repairTitle exLongTitle).length ≤ 101 ∧
      (repairTitle exLongTitle).getLast? = some 0x2026) :=
  ⟨⟨by decide, (repairTitle_spec [97]).1 (by decide)⟩,
   ⟨by decide, ((repairTitle_spec exLongTitle).2.1 (by decide)).2.1,
    ((repairTitle_spec exLongTitle).2.1 (by decide)).2.2⟩⟩

theorem leaps_succ (n : Nat) :
    leaps n ≤ leaps (n + 1) ∧ leaps (n + 1) ≤ leaps n + 1 := by
  unfold leaps
  omega

theorem leaps_leap_gap (y : Nat) (hy : 1 ≤ y)
    (hl : (y % 4 = 0 ∧ y % 100 ≠ 0) ∨ y % 400 = 0) :
    leaps (y + 1) = leaps (y - 1) + 1 := by
  unfold leaps
  omega

theorem daysInMonth_ne_two (y y' m : Nat) (hm : m ≠ 2) :
    daysInMonth y m = daysInMonth y' m := by
  unfold daysInMonth
  rw [if_neg hm, if_neg hm]

theorem dim2_cases (y : Nat) :
    daysInMonth y 2 = 28 ∨ daysInMonth y 2 = 29 := by
  unfold daysInMonth
  by_cases hl : isLeap y <;> simp [hl]

theorem isLeap_of_dim29 (y : Nat) (h : daysInMonth y 2 = 29) :
    (y % 4 = 0 ∧ y % 100 ≠ 0) ∨ y % 400 = 0 := by
  unfold daysInMonth at h
  by_cases hl : isLeap y
  · simpa [isLeap, Bool.or_eq_true, Bool.and_eq_true, beq_iff_eq,
      bne_iff_ne] using hl
  · simp [hl] at h

theorem daysOf_setYear_succ (now : DateTime) (h : now.WF) :
    daysOf now + 365 ≤ daysOf (setYearJs now (now.year + 1)) ∧
    daysOf (setYearJs now (now.year + 1)) ≤ daysOf now + 366 := by
  obtain ⟨y, m, d, hr, mi⟩ := now
  obtain ⟨hy, hm1, hm12, hd1, hdm, _, _⟩ := h
  simp only at hy hm1 hm12 hd1 hdm
  dsimp only
  by_cases hov : d ≤ daysInMonth (y + 1) m
  · rw [setYearJs, if_pos hov]
    dsimp only
    by_cases hm : m ≤ 2
    · have e1 : daysOf ⟨y, m, d, hr, mi⟩ =
          365 * (y - 1) + leaps (y - 1) + doy m + (d - 1) := by
        simp [daysOf, hm]
      have e2 : daysOf ⟨y + 1, m, d, hr, mi⟩ =
          365 * y + leaps y + doy m + (d - 1) := by
        simp [daysOf, hm]
      have hstep := leaps_succ (y - 1)
      have hy1 : y - 1 + 1 = y := by omega
      rw [hy1] at hstep
      omega
    · have e1 : daysOf ⟨y, m, d, hr, mi⟩ =
          365 * y + leaps y + doy m + (d - 1) := by
        simp [daysOf, hm]
      have e2 : daysOf ⟨y + 1, m, d, hr, mi⟩ =
          365 * (y + 1) + leaps (y + 1) + doy m + (d - 1) := by
        simp [daysOf, hm]
      have hstep := leaps_succ y
      omega
  · have hm2 : m = 2 := by
      by_contra hne
      rw [daysInMonth_ne_two y (y + 1) m hne] at hdm
      omega
    subst hm2
    have hb1 := dim2_cases y
    have hb2 := dim2_cases (y + 1)
    have hd29 : d = 29 := by omega
    have hdim1 : daysInMonth (y + 1) 2 = 28 := by omega
    have hdim0 : daysInMonth y 2 = 29 := by omega
    have hleap := isLeap_of_dim29 y hdim0
    have hgap := leaps_leap_gap y hy hleap
    rw [setYearJs, if_neg hov]
    dsimp only
    simp only [hdim1, hd29]
    have e1 : daysOf ⟨y, 2, 29, hr, mi⟩ =
        365 * (y - 1) + leaps (y - 1) + 337 + 28 := by
      have hdoy : doy 2 = 337 := by norm_num [doy]
      simp [daysOf, hdoy]
    have e2 : daysOf ⟨y + 1, 2 + 1, 29 - 28, hr, mi⟩ =
        365 * (y + 1) + leaps (y + 1) + 0 + 0 := by
      have hdoy : doy 3 = 0 := by norm_num [doy]
      simp [daysOf, hdoy]
    omega

theorem setYearJs_fields (dt : DateTime) (y : Nat) :
    (setYearJs dt y).year = y ∧ (setYearJs dt y).hour = dt.hour ∧
    (setYearJs dt y).minute = dt.minute := by
  unfold setYearJs
  split_ifs <;> exact ⟨rfl, rfl, rfl⟩

theorem msOf_setYear_succ (now : DateTime) (h : now.WF) :
    msOf now + 365 * 86400000 ≤ msOf (setYearJs now (now.year + 1)) ∧
    msOf (setYearJs now (now.year + 1)) ≤ msOf now + 366 * 86400000 := by
  have hdays := daysOf_setYear_succ now h
  have hf := setYearJs_fields now (now.year + 1)
  unfold msOf
  rw [hf.2.1, hf.2.2]
  omega

/-- C6: for a parsed raw due date, postprocessing yields the local
"YYYY-MM-DDTHH:mm" serialization of the instant with its year set to the
reference year via setFullYear when the instant is strictly beyond one
year after the reference, and of the unchanged instant otherwise; in
particular an instant more than 366 days ahead always comes back with the
reference year, and instants at most one year ahead — including past ones
— pass through unchanged.  An absent raw due date stays null. -/
theorem postprocessDue_year_correction (parsed now : DateTime)
    (hp : parsed.WF) (hn : now.WF) :
    (postprocessDue (some parsed) now =
      some (serializeLocal
        (if msOf (setYearJs now (now.year + 1)) < msOf parsed then
          setYearJs parsed now.year
        else parsed))) ∧
    (msOf now + 366 * 86400000 < msOf parsed →
      ∃ r, postprocessDue (some parsed) now = some (serializeLocal r) ∧
        r.year = now.year) ∧
    (msOf parsed ≤ msOf (setYearJs now (now.year + 1)) →
      postprocessDue (some parsed) now = some (serializeLocal parsed)) ∧
    (msOf parsed ≤ msOf now →
      postprocessDue (some parsed) now = some (serializeLocal parsed)) ∧
    postprocessDue none now = none := by
  have hgap := msOf_setYear_succ now hn
  refine ⟨rfl, ?_, ?_, ?_, rfl⟩
  · intro hfar
    have hlt : msOf (setYearJs now (now.year + 1)) < msOf parsed := by omega
    refine ⟨setYearJs parsed now.year, ?_, (setYearJs_fields parsed now.year).1⟩
    show some (serializeLocal (if msOf (setYearJs now (now.year + 1)) <
      msOf parsed then setYearJs parsed now.year else parsed)) = _
    rw [if_pos hlt]
  · intro hle
    show some (serializeLocal (if msOf (setYearJs now (now.year + 1)) <
      msOf parsed then setYearJs parsed now.year else parsed)) = _
    rw [if_neg (by omega)]
  · intro hpast
    show some (serializeLocal (if msOf (setYearJs now (now.year + 1)) <
      msOf parsed then setYearJs parsed now.year else parsed)) = _
    rw [if_neg (by omega)]

/-- Witness for C6: a due date two years ahead gets the reference year
2026, and a due date 10 days in the past passes through unchanged. -/
theorem postprocessDue_year_correction_witness :
    DateTime.WF ⟨2028, 3, 5, 10, 0⟩ ∧ DateTime.WF ⟨2026, 2, 17, 9, 0⟩ ∧
    DateTime.WF ⟨2026, 2, 7, 9, 0⟩ ∧
    postprocessDue (some ⟨2028, 3, 5, 10, 0⟩) ⟨2026, 2, 17, 9, 0⟩ =
      some "2026-03-05T10:00" ∧
    postprocessDue (some ⟨2026, 2, 7, 9, 0⟩) ⟨2026, 2, 17, 9, 0⟩ =
      some "2026-02-07T09:00" := by
  refine ⟨by decide, by decide, by decide, ?_, ?_⟩
  · have h := postprocessDue_year_correction ⟨2028, 3, 5, 10, 0⟩
      ⟨2026, 2, 17, 9, 0⟩ (by decide) (by decide)
    rw [h.1]
    decide
  · have h := postprocessDue_year_correction ⟨2026, 2, 7, 9, 0⟩
      ⟨2026, 2, 17, 9, 0⟩ (by decide) (by decide)
    rw [h.2.2.2.1 (by decide)]
    decide

end AiTodo
